import Mathlib

/-!
Verification of the `cmdtree` command-tree navigator (`src/lib.rs`).

The crate declares two further modules, `parse` and `builder`, whose sources
are not part of the repository snapshot; only `lib.rs` is visible.  The data
model (`Commander`, `SubClass`, `Action`) and everything in `lib.rs`
(`Action::call`, `Action::blank_fn`, `SubClass::with_name`, `PartialEq for
Action`, `Commander::run`, the test `current_path_test`) are embedded from the
source.  The line parser `Commander::parse_line` and the tree construction are
modelled from the specification (section 4.3 of the design document), with the
keyword behaviour pinned by the in-source test `current_path_test`, which
requires that parsing the single token "c" from position "base.one.two"
resets the position to "base" (a cancel / return-to-root keyword).
-/

namespace Cmdtree

/-- Case normalization, `str::to_lowercase` in the source: lowercase every
character.  (Defined through the character list so that it reduces inside
the kernel; core's `String.toLower` recurses on byte positions.) -/
def toLowerStr (s : String) : String :=
  String.mk (s.data.map Char.toLower)

/-- An `Action` from `lib.rs`: a named, documented leaf command with a
handler.  The Rust handler is `RefCell<Box<FnMut(&[&str])>>`; its external
side effects cannot live in a pure embedding, so the handler is modelled as a
function from the argument list to the text it emits. -/
structure Action where
  name : String
  help : String
  closure : List String → List String

/-- Outcome of invoking an action's handler through its `RefCell`.
`RefCell::borrow_mut` panics when the cell is already mutably borrowed, so a
reentrant invocation aborts instead of producing a value. -/
inductive CallResult where
  | ok (output : List String)
  | panicked
deriving DecidableEq

/-- `Action::call` from `lib.rs` lines 110-113: `borrow_mut` the closure and
invoke it.  The `executing` flag models whether the `RefCell` is already
mutably borrowed (i.e. whether this very action is mid-execution). -/
def Action.call (a : Action) (arguments : List String) (executing : Bool) : CallResult :=
  if executing then CallResult.panicked else CallResult.ok (a.closure arguments)

/-- `Action::blank_fn` from `lib.rs` lines 116-122: lowercases the name and
installs a do-nothing closure. -/
def Action.blank_fn (name : String) (help_msg : String) : Action :=
  { name := toLowerStr name, help := help_msg, closure := fun _ => [] }

/-- `impl PartialEq for Action` from `lib.rs` lines 125-129: compares `name`
and `help` only; the closure takes no part. -/
def Action.beq (a b : Action) : Bool :=
  a.name == b.name && a.help == b.help

/-- A `SubClass` from `lib.rs` lines 84-90: a named namespace node holding
child classes and actions. -/
inductive SubClass where
  | mk (name : String) (help : String) (classes : List SubClass) (actions : List Action)

/-- Field accessor for `SubClass.name`. -/
def SubClass.name : SubClass → String
  | .mk n _ _ _ => n

/-- Field accessor for `SubClass.help`. -/
def SubClass.help : SubClass → String
  | .mk _ h _ _ => h

/-- Field accessor for `SubClass.classes`. -/
def SubClass.classes : SubClass → List SubClass
  | .mk _ _ cs _ => cs

/-- Field accessor for `SubClass.actions`. -/
def SubClass.actions : SubClass → List Action
  | .mk _ _ _ as => as

/-- `SubClass::with_name` from `lib.rs` lines 93-100: lowercases the name and
starts with empty child and action lists. -/
def SubClass.with_name (name : String) (help_msg : String) : SubClass :=
  .mk (toLowerStr name) help_msg [] []

/-- The error kinds of section 7 of the specification.  Under the policies
chosen below (ascending past root is a no-op; reentrant invocation panics)
the parser only ever produces `UnrecognizedToken`. -/
inductive ErrorKind where
  | UnrecognizedToken
  | AttemptToAscendPastRoot
  | ReentrantActionInvocation
deriving DecidableEq

/-- `LineResult` from the missing `parse` module, as listed in section 3 of
the specification. -/
inductive LineResult where
  | Continue
  | Moved (newPath : String)
  | ActionDone
  | Error (kind : ErrorKind)
  | Exit
deriving DecidableEq

/-- The `Commander` struct from `lib.rs` lines 33-37: tree root, current
position and the textual path.  Rust stores `current` as a single `Rc`; a
pure embedding has no parent pointers, so the position is represented by the
chain of nodes from the current node back to the root (current node first,
root last).  The Rust `current` field corresponds to the head of `chain`. -/
structure Commander where
  root : SubClass
  chain : List SubClass
  path : String

/-- The node the navigator is currently at (the Rust `current` field). -/
def Commander.current (c : Commander) : SubClass :=
  c.chain.headD c.root

/-- Modelled from the spec: the builder's `into_commander` (the `builder`
module is not in the snapshot) freezes a finished tree into a navigator
positioned at the root with the path equal to the root's name. -/
def into_commander (root : SubClass) : Commander :=
  { root := root, chain := [root], path := root.name }

/-- Dot-joining of a name sequence, as in "path is the dot-joined name
sequence of the ancestor chain". -/
def joinNames : List String → String
  | [] => ""
  | [n] => n
  | n :: ns => n ++ "." ++ joinNames ns

/-- The path string determined by a position chain (current node first). -/
def pathString (chain : List SubClass) : String :=
  joinNames (chain.reverse.map SubClass.name)

/-- Modelled from the spec: the designated "up" keyword of section 4.3 step
2a (not exercised by any visible source). -/
def upKeyword : String := ".."

/-- The cancel / return-to-root keyword of section 4.3 step 2b.  The
in-source test `current_path_test` pins it: parsing "c" from
"base.one.two" must leave the path at "base". -/
def cancelKeyword : String := "c"

/-- Modelled from the spec: the designated exit keyword of section 4.3 step
2c. -/
def exitKeyword : String := "exit"

/-- Ascend to the structural parent: drop the current node from the chain
and recompute the path without its last segment. -/
def Commander.ascend (c : Commander) : Commander :=
  { c with chain := c.chain.tail, path := pathString c.chain.tail }

/-- Descend into a child class: push it on the chain and append its name to
the path. -/
def Commander.descend (c : Commander) (child : SubClass) : Commander :=
  { c with chain := child :: c.chain, path := c.path ++ "." ++ child.name }

/-- Reset to the root: the chain is just the root and the path is the root's
name. -/
def Commander.cancel (c : Commander) : Commander :=
  { c with chain := [c.root], path := c.root.name }

/-- Look a (lowercased) token up among child classes by name. -/
def findNamed (cs : List SubClass) (t : String) : Option SubClass :=
  cs.find? (fun c => c.name == t)

/-- Look a (lowercased) token up among actions by name. -/
def findAction (as : List Action) (t : String) : Option Action :=
  as.find? (fun a => a.name == t)

/-- Modelled from the spec: the token-processing loop of `parse_line`
(section 4.3 step 2, the `parse` module is not in the snapshot).  Tokens are
consumed left to right; keywords are checked before classes, classes before
actions.  `navigated` records whether any navigation step has happened.
Ascending at the root is taken as a no-op (a policy the specification leaves
open).  The third component is the feedback text destined for the sink. -/
def parseTokens : Commander → List String → Bool → Commander × LineResult × List String
  | st, [], navigated =>
    (st, (if navigated then LineResult.Moved st.path else LineResult.Continue), [])
  | st, tok :: rest, navigated =>
    let t := toLowerStr tok
    if t = upKeyword then
      if st.chain.length ≤ 1 then parseTokens st rest navigated
      else parseTokens st.ascend rest true
    else if t = cancelKeyword then parseTokens st.cancel rest true
    else if t = exitKeyword then (st, LineResult.Exit, [])
    else
      match findNamed st.current.classes t with
      | some child => parseTokens (st.descend child) rest true
      | none =>
        match findAction st.current.actions t with
        | some a =>
          let _ := a.call rest false
          (st, LineResult.ActionDone, [])
        | none =>
          (st, LineResult.Error ErrorKind.UnrecognizedToken, ["unrecognized token: " ++ t])

/-- Worker for whitespace tokenization: `acc` holds the characters of the
word currently being read, in reverse. -/
def wordsAux : List Char → List Char → List (List Char)
  | [], acc => if acc = [] then [] else [acc.reverse]
  | c :: cs, acc =>
    if c.isWhitespace then
      (if acc = [] then wordsAux cs [] else acc.reverse :: wordsAux cs [])
    else wordsAux cs (c :: acc)

/-- Whitespace tokenization on the character list of the line: maximal
non-whitespace runs, in order. -/
def words (cs : List Char) : List (List Char) :=
  wordsAux cs []

/-- Modelled from the spec: tokenize the line by whitespace (section 4.3
step 1); blank input yields no tokens. -/
def tokenize (line : String) : List String :=
  (words line.data).map String.mk

/-- Modelled from the spec: on error the navigator's state is left unchanged
(section 7 propagation policy: no partial navigation is committed if
resolution fails mid-line). -/
def rollbackOnError (orig : Commander) :
    Commander × LineResult × List String → Commander × LineResult × List String
  | (st, res, msgs) =>
    match res with
    | LineResult.Error k => (orig, LineResult.Error k, msgs)
    | r => (st, r, msgs)

/-- Modelled from the spec: feedback text reaches the sink only when
`echo_output` is set (section 7: errors are rendered to the sink only when
`echo_output` is enabled). -/
def applyEcho (echo : Bool) :
    Commander × LineResult × List String → Commander × LineResult × List String
  | (st, res, msgs) => (st, res, if echo then msgs else [])

/-- Modelled from the spec: `Commander::parse_line` (section 4.3; the
`parse` module is not in the snapshot).  Returns the navigator after the
call, the `LineResult`, and the text written to the sink. -/
def Commander.parse_line (st : Commander) (line : String) (echo_output : Bool) :
    Commander × LineResult × List String :=
  applyEcho echo_output (rollbackOnError st (parseTokens st (tokenize line) false))

/-- Fold a sequence of input lines through `parse_line`, keeping the
navigator state. -/
def applyLines (st : Commander) (lines : List String) : Commander :=
  lines.foldl (fun s l => (s.parse_line l true).1) st

/-- One outcome of `linefeed`'s `read_line` as matched in `Commander::run`:
an input line, end of input, or any other signal / IO error (both fall into
the catch-all arm of the Rust `match`). -/
inductive ReadResult where
  | input (line : String)
  | eof
  | interrupted

/-- One iteration of the `while !exit` body of `Commander::run` (`lib.rs`
lines 67-80): an input line is parsed with `echo_output = true` and `exit`
becomes true exactly on `LineResult::Exit`; every other read outcome leaves
the state alone and the flag false. -/
def runStep (st : Commander) (r : ReadResult) : Commander × Bool :=
  match r with
  | ReadResult.input s =>
    let p := st.parse_line s true
    (p.1, match p.2.1 with
          | LineResult.Exit => true
          | _ => false)
  | _ => (st, false)

/-- `Commander::run` driven by a finite list of read outcomes: iterate
`runStep` until the exit flag is set or the reads are exhausted; the boolean
reports whether the loop exited. -/
def runLoop : Commander → List ReadResult → Commander × Bool
  | st, [] => (st, false)
  | st, r :: rs =>
    let p := runStep st r
    if p.2 then (p.1, true) else runLoop p.1 rs

/-- Space-joining of tokens, to spell an input line "c1 c2 … cn". -/
def joinWords : List String → String
  | [] => ""
  | [w] => w
  | w :: ws => w ++ " " ++ joinWords ws

/-- A token that the parser will treat as a plain name: nonempty, free of
whitespace, already lowercase, and distinct from the three navigation
keywords. -/
def goodName (n : String) : Prop :=
  n.data ≠ [] ∧ (∀ c ∈ n.data, c.isWhitespace = false) ∧ toLowerStr n = n ∧
    n ≠ upKeyword ∧ n ≠ cancelKeyword ∧ n ≠ exitKeyword

instance (n : String) : Decidable (goodName n) := by
  unfold goodName
  infer_instance

/-- A valid nested class path: each name resolves (by the parser's own
lookup) to a child class of the node reached so far. -/
inductive IsClassChain : SubClass → List String → Prop
  | nil (node : SubClass) : IsClassChain node []
  | cons {node : SubClass} {n : String} {child : SubClass} {rest : List String} :
      findNamed node.classes n = some child → IsClassChain child rest →
      IsClassChain node (n :: rest)

/-- The position chain (current node first) is a genuine ancestor chain: it
ends at `root` and every node is a child class of its successor. -/
inductive ValidChain (root : SubClass) : List SubClass → Prop
  | base : ValidChain root [root]
  | step {child parent : SubClass} {rest : List SubClass} :
      child ∈ parent.classes → ValidChain root (parent :: rest) →
      ValidChain root (child :: parent :: rest)

/-- The navigator invariant: the chain is an ancestor chain of the stored
root and the stored path is its dot-joined name sequence. -/
def Commander.wf (st : Commander) : Prop :=
  ValidChain st.root st.chain ∧ st.path = pathString st.chain

/-- The example tree of the in-source test `current_path_test`: leaf class
"two". -/
def twoClass : SubClass := SubClass.mk "two" "" [] []

/-- The example tree: class "one" holding "two". -/
def oneClass : SubClass := SubClass.mk "one" "" [twoClass] []

/-- The example tree: root "base" holding "one". -/
def baseClass : SubClass := SubClass.mk "base" "" [oneClass] []

/-- A tree whose root has a child class named like the exit keyword. -/
def exitNamedClass : SubClass := SubClass.mk "exit" "" [] []

/-- Root "base" holding the keyword-named child class. -/
def baseKwClass : SubClass := SubClass.mk "base" "" [exitNamedClass] []

/-- A concrete action for witnesses. -/
def exAction : Action := Action.blank_fn "act" "a test action"

/-- A tree whose root holds the single action `exAction`. -/
def actionTree : SubClass := SubClass.mk "base" "" [] [exAction]

end Cmdtree

namespace Cmdtree

/-- The in-source test `current_path_test` (`lib.rs` lines 157-177), replayed
against the model: "one two" moves the path to "base.one.two", a single "c"
returns it to "base", and "one" moves it to "base.one". -/
theorem current_path_test_model :
    (into_commander baseClass).path = "base" ∧
    ((into_commander baseClass).parse_line "one two" true).1.path = "base.one.two" ∧
    (((into_commander baseClass).parse_line "one two" true).1.parse_line "c" true).1.path
      = "base" ∧
    ((((into_commander baseClass).parse_line "one two" true).1.parse_line "c" true).1.parse_line
        "one" true).1.path = "base.one" := by
  refine ⟨rfl, ?_, ?_, ?_⟩ <;> decide

/-- C8: for every supplied name and help text, `SubClass::with_name` and the
in-source `Action` constructor `Action::blank_fn` store the lowercased form
of the supplied name (and the help text verbatim). -/
theorem with_name_stores_lowercased (n h : String) :
    (SubClass.with_name n h).name = toLowerStr n ∧
    (SubClass.with_name n h).help = h ∧
    (Action.blank_fn n h).name = toLowerStr n ∧
    (Action.blank_fn n h).help = h :=
  ⟨rfl, rfl, rfl, rfl⟩

/-- C9: two `Action`s compare equal exactly when their names and help texts
agree; replacing either handler does not change the comparison. -/
theorem action_eq_ignores_handler (a b : Action) (f g : List String → List String) :
    (Action.beq a b = true ↔ a.name = b.name ∧ a.help = b.help) ∧
    Action.beq { a with closure := f } { b with closure := g } = Action.beq a b := by
  constructor
  · simp [Action.beq, Bool.and_eq_true, beq_iff_eq]
  · rfl

/-- C5 counterexample: invoking the concrete action `exAction` while it is
already executing does not produce any `LineResult`; the `RefCell` borrow
fails and the invocation panics (aborts), contradicting the claim that the
outcome is `LineResult::Error(ReentrantActionInvocation)` with no abort. -/
theorem reentrant_call_panics_cex :
    Action.call exAction ["x"] true = CallResult.panicked := rfl

/-- C5 amended: a reentrant invocation fails fast — the handler is not run
and the call panics via the `RefCell` exclusivity check (it is not signalled
as a `LineResult::Error`); a non-reentrant invocation runs the handler. -/
theorem reentrant_call_fails_fast (a : Action) (args : List String) :
    Action.call a args true = CallResult.panicked ∧
    Action.call a args false = CallResult.ok (a.closure args) :=
  ⟨rfl, rfl⟩

/-- C2 counterexample: in the base/one/two tree, after parsing "one two" the
path is "base.one.two", and parsing "c" then yields path "base", not the
claimed "base.one" ("c" is the return-to-root keyword, exactly as the
in-source test `current_path_test` asserts). -/
theorem scenario_c_resets_to_root_cex :
    (((into_commander baseClass).parse_line "one two" true).1.parse_line "c" true).1.path
      ≠ "base.one" := by
  decide

/-- C2 amended: root "base" → class "one" → class "two"; `path()` starts as
"base"; parsing "one two" gives "base.one.two"; parsing "c" resets to
"base"; parsing "c" again stays at "base"; parsing "one" gives
"base.one". -/
theorem scenario_paths :
    (into_commander baseClass).path = "base" ∧
    ((into_commander baseClass).parse_line "one two" true).1.path = "base.one.two" ∧
    (((into_commander baseClass).parse_line "one two" true).1.parse_line "c" true).1.path
      = "base" ∧
    ((((into_commander baseClass).parse_line "one two" true).1.parse_line "c" true).1.parse_line
        "c" true).1.path = "base" ∧
    (((((into_commander baseClass).parse_line "one two" true).1.parse_line "c"
        true).1.parse_line "c" true).1.parse_line "one" true).1.path = "base.one" := by
  refine ⟨rfl, ?_, ?_, ?_, ?_⟩ <;> decide

/-- C4: `parse_line` calls that differ only in the `echo_output` flag yield
the same `LineResult` and the same navigator state; the flag only selects
whether the feedback text reaches the sink. -/
theorem parse_line_echo_independent (st : Commander) (line : String) (e₁ e₂ : Bool) :
    (st.parse_line line e₁).1 = (st.parse_line line e₂).1 ∧
    (st.parse_line line e₁).2.1 = (st.parse_line line e₂).2.1 := by
  unfold Commander.parse_line
  obtain ⟨a, b, c⟩ := rollbackOnError st (parseTokens st (tokenize line) false)
  exact ⟨rfl, rfl⟩

end Cmdtree

namespace Cmdtree

/-- A successful class lookup returns one of the node's children. -/
theorem findNamed_mem {cs : List SubClass} {t : String} {c : SubClass}
    (h : findNamed cs t = some c) : c ∈ cs :=
  List.mem_of_find?_eq_some h

/-- Dot-joining distributes over appending one final name to a nonempty
sequence. -/
theorem joinNames_append (l : List String) (x : String) (h : l ≠ []) :
    joinNames (l ++ [x]) = joinNames l ++ "." ++ x := by
  induction l with
  | nil => exact absurd rfl h
  | cons a l ih =>
    cases l with
    | nil => rfl
    | cons b t =>
      show a ++ "." ++ joinNames (b :: (t ++ [x]))
        = (a ++ "." ++ joinNames (b :: t)) ++ "." ++ x
      rw [show (b :: (t ++ [x])) = (b :: t) ++ [x] from rfl, ih (by simp)]
      simp [String.append_assoc]

/-- An ancestor chain is never empty. -/
theorem ValidChain.ne_nil {root : SubClass} {ch : List SubClass}
    (h : ValidChain root ch) : ch ≠ [] := by
  cases h <;> simp

/-- Read from the root end, an ancestor chain starts with the root. -/
theorem ValidChain.reverse_head {root : SubClass} {ch : List SubClass}
    (h : ValidChain root ch) : ∃ t, ch.reverse = root :: t := by
  induction h with
  | base => exact ⟨[], rfl⟩
  | @step child parent rest hmem hv ih =>
    obtain ⟨t, ht⟩ := ih
    exact ⟨t ++ [child], by simp [ht]⟩

/-- Pushing a node onto a nonempty chain appends its name to the path
string. -/
theorem pathString_cons (child : SubClass) (ch : List SubClass) (h : ch ≠ []) :
    pathString (child :: ch) = pathString ch ++ "." ++ child.name := by
  unfold pathString
  rw [List.reverse_cons, List.map_append]
  exact joinNames_append _ _ (by simp [h])

/-- Resetting to the root restores the invariant outright. -/
theorem cancel_wf (st : Commander) : st.cancel.wf :=
  ⟨ValidChain.base, rfl⟩

/-- A freshly built navigator satisfies the invariant. -/
theorem into_commander_wf (root : SubClass) : (into_commander root).wf :=
  ⟨ValidChain.base, rfl⟩

/-- Ascending from a non-root position preserves the invariant. -/
theorem ascend_wf {st : Commander} (h : st.wf) (hlen : 1 < st.chain.length) :
    st.ascend.wf := by
  obtain ⟨root, chain, path⟩ := st
  obtain ⟨hv, hp⟩ := h
  dsimp only at hv hp hlen ⊢
  cases hv with
  | base => simp at hlen
  | step hmem hv' => exact ⟨hv', rfl⟩

/-- Descending into a child of the current node preserves the invariant. -/
theorem descend_wf {st : Commander} {child : SubClass} (h : st.wf)
    (hc : child ∈ st.current.classes) : (st.descend child).wf := by
  obtain ⟨root, chain, path⟩ := st
  obtain ⟨hv, hp⟩ := h
  dsimp only at hv hp hc ⊢
  cases chain with
  | nil => exact absurd rfl (ValidChain.ne_nil hv)
  | cons c t =>
    refine ⟨ValidChain.step hc hv, ?_⟩
    show path ++ "." ++ child.name = pathString (child :: c :: t)
    rw [pathString_cons _ _ (by simp), hp]

/-- The token loop preserves the navigator invariant. -/
theorem parseTokens_wf : ∀ (toks : List String) (st : Commander) (b : Bool),
    st.wf → ((parseTokens st toks b).1).wf := by
  intro toks
  induction toks with
  | nil => intro st b h; exact h
  | cons t rest ih =>
    intro st b h
    simp only [parseTokens]
    split
    · split
      · exact ih _ _ h
      · next hlen => exact ih _ _ (ascend_wf h (by omega))
    · split
      · exact ih _ _ (cancel_wf st)
      · split
        · exact h
        · split
          · next child hfind => exact ih _ _ (descend_wf h (findNamed_mem hfind))
          · split
            · exact h
            · exact h

/-- The token loop never changes the stored tree root. -/
theorem parseTokens_root : ∀ (toks : List String) (st : Commander) (b : Bool),
    ((parseTokens st toks b).1).root = st.root := by
  intro toks
  induction toks with
  | nil => intro st b; rfl
  | cons t rest ih =>
    intro st b
    simp only [parseTokens]
    split
    · split
      · exact ih _ _
      · exact ih _ _
    · split
      · exact ih _ _
      · split
        · rfl
        · split
          · exact ih _ _
          · split
            · rfl
            · rfl

/-- `parse_line` preserves the navigator invariant. -/
theorem parse_line_wf (st : Commander) (line : String) (e : Bool) (h : st.wf) :
    ((st.parse_line line e).1).wf := by
  unfold Commander.parse_line
  have h2 := parseTokens_wf (tokenize line) st false h
  rcases hp : parseTokens st (tokenize line) false with ⟨a, b, c⟩
  rw [hp] at h2
  cases b <;> first | exact h2 | exact h

/-- `parse_line` never changes the stored tree root. -/
theorem parse_line_root (st : Commander) (line : String) (e : Bool) :
    ((st.parse_line line e).1).root = st.root := by
  unfold Commander.parse_line
  have h2 := parseTokens_root (tokenize line) st false
  rcases hp : parseTokens st (tokenize line) false with ⟨a, b, c⟩
  rw [hp] at h2
  cases b <;> first | exact h2 | rfl

/-- Any sequence of `parse_line` calls preserves the invariant. -/
theorem applyLines_wf (st : Commander) (lines : List String) (h : st.wf) :
    (applyLines st lines).wf := by
  induction lines generalizing st with
  | nil => exact h
  | cons l ls ih => exact ih _ (parse_line_wf _ _ _ h)

/-- Any sequence of `parse_line` calls leaves the stored root alone. -/
theorem applyLines_root (st : Commander) (lines : List String) :
    (applyLines st lines).root = st.root := by
  induction lines generalizing st with
  | nil => rfl
  | cons l ls ih => exact (ih _).trans (parse_line_root _ _ _)

/-- A dot-joined sequence starting with a nonempty name is nonempty. -/
theorem joinNames_ne_empty (n : String) (ns : List String) (h : n ≠ "") :
    joinNames (n :: ns) ≠ "" := by
  cases ns with
  | nil => exact h
  | cons m t =>
    intro hcon
    have hd : n.data ++ ['.'] ++ (joinNames (m :: t)).data = ([] : List Char) := by
      have h2 := congrArg String.data hcon
      simp only [joinNames, String.data_append] at h2
      exact h2
    simp at hd

/-- The only error kind the token loop ever produces is
`UnrecognizedToken`. -/
theorem parseTokens_error_kind : ∀ (toks : List String) (st : Commander) (b : Bool)
    (k : ErrorKind), (parseTokens st toks b).2.1 = LineResult.Error k →
    k = ErrorKind.UnrecognizedToken := by
  intro toks
  induction toks with
  | nil =>
    intro st b k h
    cases b <;> simp [parseTokens] at h
  | cons t rest ih =>
    intro st b k h
    simp only [parseTokens] at h
    split at h
    · split at h
      · exact ih _ _ _ h
      · exact ih _ _ _ h
    · split at h
      · exact ih _ _ _ h
      · split at h
        · simp at h
        · split at h
          · exact ih _ _ _ h
          · split at h
            · simp at h
            · simp at h
              exact h.symm

end Cmdtree

namespace Cmdtree

/-- C3: whenever `parse_line` reports an error, the kind is
`UnrecognizedToken` (a token matched no keyword, child class or action) and
the navigator — its current node chain and its path — is exactly as before
the call: no partial navigation is committed. -/
theorem unrecognized_token_rolls_back (st : Commander) (line : String) (echo : Bool)
    (h : ∃ k, (st.parse_line line echo).2.1 = LineResult.Error k) :
    (st.parse_line line echo).2.1 = LineResult.Error ErrorKind.UnrecognizedToken ∧
    (st.parse_line line echo).1 = st := by
  obtain ⟨k, hk⟩ := h
  unfold Commander.parse_line at hk ⊢
  rcases hp : parseTokens st (tokenize line) false with ⟨a, b, c⟩
  rw [hp] at hk
  cases b with
  | Error k' =>
    have hk' := parseTokens_error_kind (tokenize line) st false k' (by rw [hp])
    subst hk'
    exact ⟨rfl, rfl⟩
  | Continue => simp [rollbackOnError, applyEcho] at hk
  | Moved p => simp [rollbackOnError, applyEcho] at hk
  | ActionDone => simp [rollbackOnError, applyEcho] at hk
  | Exit => simp [rollbackOnError, applyEcho] at hk

/-- C3 witness: parsing the unknown token "bogus" at the root of the
base/one/two tree yields `Error(UnrecognizedToken)` and leaves the navigator
untouched. -/
theorem unrecognized_token_witness :
    ((into_commander baseClass).parse_line "bogus" true).2.1
      = LineResult.Error ErrorKind.UnrecognizedToken ∧
    ((into_commander baseClass).parse_line "bogus" true).1 = into_commander baseClass :=
  unrecognized_token_rolls_back (into_commander baseClass) "bogus" true
    ⟨ErrorKind.UnrecognizedToken, by decide⟩

/-- C7 amended: in every state reachable by `parse_line` calls from a fresh
navigator, the path equals the dot-joined names of the ancestor chain from
the root to the current node, and — provided the root's name is nonempty —
the path is never the empty string. -/
theorem reachable_path_invariant (root : SubClass) (lines : List String) :
    (applyLines (into_commander root) lines).path
      = joinNames ((applyLines (into_commander root) lines).chain.reverse.map SubClass.name) ∧
    ValidChain root (applyLines (into_commander root) lines).chain ∧
    (root.name ≠ "" → (applyLines (into_commander root) lines).path ≠ "") := by
  have hwf := applyLines_wf (into_commander root) lines (into_commander_wf root)
  have hroot := applyLines_root (into_commander root) lines
  obtain ⟨hv, hp⟩ := hwf
  rw [hroot] at hv
  simp only [pathString] at hp
  refine ⟨hp, hv, ?_⟩
  intro hne
  obtain ⟨t, ht⟩ := hv.reverse_head
  rw [hp, ht, List.map_cons]
  exact joinNames_ne_empty _ _ hne

/-- C7 witness: after parsing "one two" and "c" in the base/one/two tree the
path is a nonempty dot-joined ancestor chain. -/
theorem reachable_path_invariant_witness :
    (applyLines (into_commander baseClass) ["one two", "c"]).path ≠ "" :=
  (reachable_path_invariant baseClass ["one two", "c"]).2.2 (by decide)

/-- C7 counterexample: a navigator freshly built over a root whose name is
the empty string reaches (already after one blank `parse_line` call) a state
whose path is the empty string, so "the path is never the empty string" does
not hold unconditionally. -/
theorem empty_root_name_path_cex :
    (applyLines (into_commander (SubClass.mk "" "" [] [])) [""]).path = "" := by
  decide

end Cmdtree

namespace Cmdtree

/-- C6: whenever the next token to be processed lowercases to the designated
exit keyword, the token loop stops at once and returns `Exit`, whatever
state it is in, whatever tokens remain, and whether or not navigation has
already happened on the line. -/
theorem exit_keyword_stops (st : Commander) (tok : String) (rest : List String)
    (navigated : Bool) (h : toLowerStr tok = exitKeyword) :
    parseTokens st (tok :: rest) navigated = (st, LineResult.Exit, []) := by
  simp only [parseTokens, h]
  rw [if_neg (by decide), if_neg (by decide)]
  simp

/-- C6 witness: processing "EXIT" at the root of the base/one/two tree with
further tokens pending returns `Exit` immediately. -/
theorem exit_keyword_witness :
    parseTokens (into_commander baseClass) ("EXIT" :: ["one", "junk"]) false
      = (into_commander baseClass, LineResult.Exit, []) :=
  exit_keyword_stops (into_commander baseClass) "EXIT" ["one", "junk"] false (by decide)

/-- C10: one iteration of the `run()` loop sets the exit flag exactly when
the read produced an input line on which `parse_line` returns `Exit`; and
whenever the flag stays false — any other `LineResult`, end of input, or a
read failure — the loop goes on with the next read. -/
theorem run_loop_exits_only_on_exit :
    (∀ (st : Commander) (r : ReadResult),
      (runStep st r).2 = true ↔
        ∃ s, r = ReadResult.input s ∧ (st.parse_line s true).2.1 = LineResult.Exit) ∧
    (∀ (st : Commander) (r : ReadResult) (rs : List ReadResult),
      (runStep st r).2 = false → runLoop st (r :: rs) = runLoop (runStep st r).1 rs) := by
  constructor
  · intro st r
    cases r with
    | input s =>
      simp only [runStep]
      cases hres : (st.parse_line s true).2.1 <;> simp [hres]
    | eof => simp [runStep]
    | interrupted => simp [runStep]
  · intro st r rs h
    simp only [runLoop]
    rw [h]
    simp

/-- C10 witness: an end-of-input read does not stop the loop; it continues
with the remaining reads. -/
theorem run_loop_witness :
    runLoop (into_commander baseClass) [ReadResult.eof]
      = runLoop (runStep (into_commander baseClass) ReadResult.eof).1 [] :=
  run_loop_exits_only_on_exit.2 (into_commander baseClass) ReadResult.eof [] rfl

end Cmdtree

namespace Cmdtree

/-- A run of non-whitespace characters is collected into the pending word. -/
theorem wordsAux_no_ws (w : List Char) : ∀ (acc : List Char),
    (∀ c ∈ w, c.isWhitespace = false) → acc.reverse ++ w ≠ [] →
    wordsAux w acc = [acc.reverse ++ w] := by
  induction w with
  | nil =>
    intro acc _ hne
    have hacc : acc ≠ [] := by simpa using hne
    rw [wordsAux, if_neg hacc]
    simp
  | cons c w ih =>
    intro acc hw _
    rw [wordsAux, hw c (by simp), if_neg (by simp)]
    rw [ih (c :: acc) (fun c' hc' => hw c' (by simp [hc'])) (by simp)]
    simp

/-- A non-whitespace run followed by a whitespace separator is emitted as
one word, and tokenization continues after the separator. -/
theorem wordsAux_word_sep (w : List Char) (sep : Char) (rest : List Char) :
    ∀ (acc : List Char), (∀ c ∈ w, c.isWhitespace = false) →
    sep.isWhitespace = true → acc.reverse ++ w ≠ [] →
    wordsAux (w ++ sep :: rest) acc = (acc.reverse ++ w) :: wordsAux rest [] := by
  induction w with
  | nil =>
    intro acc _ hsep hne
    have hacc : acc ≠ [] := by simpa using hne
    rw [List.nil_append, wordsAux, hsep, if_pos rfl, if_neg hacc]
    simp
  | cons c w ih =>
    intro acc hw hsep _
    rw [List.cons_append, wordsAux, hw c (by simp), if_neg (by simp)]
    rw [ih (c :: acc) (fun c' hc' => hw c' (by simp [hc'])) hsep (by simp)]
    simp

/-- Tokenizing the space-joined spelling of nonempty whitespace-free names
recovers exactly those names. -/
theorem tokenize_joinWords (names : List String)
    (h : ∀ n ∈ names, n.data ≠ [] ∧ ∀ c ∈ n.data, c.isWhitespace = false) :
    tokenize (joinWords names) = names := by
  induction names with
  | nil => rfl
  | cons a names ih =>
    cases names with
    | nil =>
      obtain ⟨ha1, ha2⟩ := h a (by simp)
      show (words (joinWords [a]).data).map String.mk = [a]
      rw [show joinWords [a] = a from rfl]
      rw [words, wordsAux_no_ws a.data [] ha2 (by simpa using ha1)]
      simp
    | cons b rest =>
      obtain ⟨ha1, ha2⟩ := h a (by simp)
      have ihx : tokenize (joinWords (b :: rest)) = b :: rest :=
        ih (fun n hn => h n (by simp [hn]))
      have hdata : (joinWords (a :: b :: rest)).data
          = a.data ++ (' ' :: (joinWords (b :: rest)).data) := by
        show ((a ++ " ") ++ joinWords (b :: rest)).data = _
        rw [String.data_append, String.data_append]
        simp
      calc tokenize (joinWords (a :: b :: rest))
          = (wordsAux (a.data ++ (' ' :: (joinWords (b :: rest)).data)) []).map String.mk := by
            rw [tokenize, words, hdata]
        _ = (a.data :: wordsAux (joinWords (b :: rest)).data []).map String.mk := by
            rw [wordsAux_word_sep a.data ' ' (joinWords (b :: rest)).data [] ha2 (by decide)
                (by simpa using ha1)]
            simp
        _ = a :: tokenize (joinWords (b :: rest)) := rfl
        _ = a :: b :: rest := by rw [ihx]

/-- A successful class lookup returns a child carrying the looked-up
name. -/
theorem findNamed_name {cs : List SubClass} {t : String} {c : SubClass}
    (h : findNamed cs t = some c) : c.name = t := by
  have := List.find?_some h
  simpa using this

/-- Dot-joining absorbs an already dot-terminated head. -/
theorem joinNames_glue (p n : String) (l : List String) :
    joinNames ((p ++ "." ++ n) :: l) = p ++ "." ++ joinNames (n :: l) := by
  cases l with
  | nil => rfl
  | cons m t =>
    show (p ++ "." ++ n) ++ "." ++ joinNames (m :: t)
      = p ++ "." ++ (n ++ "." ++ joinNames (m :: t))
    simp [String.append_assoc]

/-- Feeding the token loop a valid chain of keyword-free class names
descends through all of them and reports `Moved` with the path extended by
each name in turn. -/
theorem parseTokens_chain : ∀ (names : List String) (st : Commander) (b : Bool),
    IsClassChain st.current names → (∀ n ∈ names, goodName n) → names ≠ [] →
    ∃ st', parseTokens st names b = (st', LineResult.Moved st'.path, []) ∧
      st'.path = joinNames (st.path :: names) := by
  intro names
  induction names with
  | nil => intro st b _ _ h; exact absurd rfl h
  | cons n rest ih =>
    intro st b hchain hgood _
    cases hchain with
    | @cons _ _ child _ hfind hchain' =>
      obtain ⟨hg1, hg2, hg3, hg4, hg5, hg6⟩ := hgood n (by simp)
      have hname : child.name = n := findNamed_name hfind
      simp only [parseTokens, hg3]
      rw [if_neg hg4, if_neg hg5, if_neg hg6, hfind]
      cases rest with
      | nil =>
        refine ⟨st.descend child, rfl, ?_⟩
        show st.path ++ "." ++ child.name = joinNames [st.path, n]
        rw [hname]
        rfl
      | cons m rest' =>
        obtain ⟨st', hst', hpath⟩ := ih (st.descend child) true hchain'
          (fun n' hn' => hgood n' (by simp [hn'])) (by simp)
        refine ⟨st', hst', ?_⟩
        rw [hpath]
        show joinNames (((st.path ++ "." ++ child.name)) :: m :: rest')
          = joinNames (st.path :: n :: m :: rest')
        rw [hname]
        exact joinNames_glue st.path n (m :: rest')

/-- C1 amended: for every tree and every valid nested class path
[c1, …, cn] of names that are usable identifiers (nonempty,
whitespace-free, lowercase, and not colliding with the up / cancel / exit
keywords), parsing the line "c1 c2 … cn" from the root yields `Moved` and
afterwards the path is the root name followed by c1 … cn, dot-joined. -/
theorem nested_class_path_moves (root : SubClass) (names : List String)
    (hne : names ≠ []) (hgood : ∀ n ∈ names, goodName n)
    (hchain : IsClassChain root names) :
    ((into_commander root).parse_line (joinWords names) true).2.1
      = LineResult.Moved (joinNames (root.name :: names)) ∧
    ((into_commander root).parse_line (joinWords names) true).1.path
      = joinNames (root.name :: names) := by
  have htok : tokenize (joinWords names) = names :=
    tokenize_joinWords names (fun n hn => ⟨(hgood n hn).1, (hgood n hn).2.1⟩)
  have hchain' : IsClassChain (into_commander root).current names := hchain
  obtain ⟨st', hst', hpath⟩ :=
    parseTokens_chain names (into_commander root) false hchain' hgood hne
  unfold Commander.parse_line
  rw [htok, hst']
  constructor
  · show LineResult.Moved st'.path = LineResult.Moved (joinNames (root.name :: names))
    rw [hpath]
    rfl
  · show st'.path = joinNames (root.name :: names)
    rw [hpath]
    rfl

/-- C1 witness: in the base/one/two tree, parsing "one two" from the root
yields `Moved` and path "base.one.two". -/
theorem nested_class_path_witness :
    ((into_commander baseClass).parse_line (joinWords ["one", "two"]) true).2.1
      = LineResult.Moved (joinNames ["base", "one", "two"]) ∧
    ((into_commander baseClass).parse_line (joinWords ["one", "two"]) true).1.path
      = joinNames ["base", "one", "two"] :=
  nested_class_path_moves baseClass ["one", "two"] (by decide) (by decide)
    (IsClassChain.cons rfl (IsClassChain.cons rfl (IsClassChain.nil _)))

/-- C1 counterexample: a class named "exit" is a valid nested class path of
length one built into the tree, yet parsing the line "exit" from the root
does not yield `Moved` with path "base.exit" — the exit keyword is matched
first (keywords are checked before child classes), so the universally
quantified claim fails without a keyword-freedom proviso. -/
theorem keyword_named_class_cex :
    IsClassChain baseKwClass ["exit"] ∧
    ¬(((into_commander baseKwClass).parse_line (joinWords ["exit"]) true).2.1
        = LineResult.Moved (joinNames ["base", "exit"]) ∧
      ((into_commander baseKwClass).parse_line (joinWords ["exit"]) true).1.path
        = joinNames ["base", "exit"]) := by
  constructor
  · exact IsClassChain.cons rfl (IsClassChain.nil _)
  · decide

end Cmdtree
